import Mathlib

/-!
Verification of the provisioning orchestration engine of `wg-ondemand`.

The Go sources are shallowly embedded: pure computations become Lean
functions, external collaborators (the JSON decoder, AWS SDK calls, SSH
sessions, the Hetzner client) become explicit function or record parameters
describing their observable outcomes, unbounded polling loops take explicit
fuel, and Go strings are `String` or `List Char` as convenient.
-/

namespace WgOndemand

/-- Model of a Go `error` value.  `context.Canceled` is the distinguished
cancellation error (`errors.Is(err, context.Canceled)` holds exactly for it);
every other error is identified by its message (`err.Error()`). -/
inductive GoError where
  | canceled : GoError
  | other : String → GoError
deriving DecidableEq, Repr

/-- `err.Error()` — the message carried by a Go error. -/
def GoError.message : GoError → String
  | .canceled => "context canceled"
  | .other m => m

/-! ### Strings as character lists: Go `strings` helpers

`RunInitScript` splits its stdout with `strings.SplitAfter`; the stack
lifecycle code classifies SDK errors with `strings.Contains`; the logger
splits on newlines.  These are modelled on `List Char`. -/

/-- Go `strings.Count` for a non-empty separator: the number of
non-overlapping instances of `sep` in `s`, scanning left to right.  This is
also the number of split points produced by `strings.SplitAfter`. -/
def goCount (sep : List Char) : List Char → Nat
  | [] => 0
  | c :: rest =>
    if h : sep ≠ [] ∧ sep.isPrefixOf (c :: rest) then
      goCount sep (List.drop sep.length (c :: rest)) + 1
    else
      goCount sep rest
termination_by s => s.length
decreasing_by
· have hpos : 0 < sep.length := List.length_pos.mpr h.1
  simp only [List.length_drop, List.length_cons]
  omega
· simp only [List.length_cons]
  omega

/-- The number of positions of `s` at which `sep` occurs, counting every
starting index (overlapping occurrences included).  This is the plain reading
of “the sentinel occurs exactly once”. -/
def naiveCount (sep : List Char) : List Char → Nat
  | [] => 0
  | c :: rest => (if sep.isPrefixOf (c :: rest) then 1 else 0) + naiveCount sep rest

/-- Worker for `splitAfter`: `acc` holds the characters of the current
fragment in reverse. -/
def splitAfterAux (sep : List Char) : List Char → List Char → List (List Char)
  | acc, [] => [acc.reverse]
  | acc, c :: rest =>
    if h : sep ≠ [] ∧ sep.isPrefixOf (c :: rest) then
      (acc.reverse ++ sep) :: splitAfterAux sep [] (List.drop sep.length (c :: rest))
    else
      splitAfterAux sep (c :: acc) rest
termination_by _ s => s.length
decreasing_by
· have hpos : 0 < sep.length := List.length_pos.mpr h.1
  simp only [List.length_drop, List.length_cons]
  omega
· simp only [List.length_cons]
  omega

/-- Go `strings.SplitAfter(s, sep)` for a non-empty `sep`: slice `s` into all
substrings after each non-overlapping instance of `sep`. -/
def splitAfter (sep s : List Char) : List (List Char) :=
  splitAfterAux sep [] s

/-- The remainder of `s` strictly after the first occurrence of `sep` — the
fragment Go code reads as `parts[1]` when the separator occurs exactly once. -/
def suffixAfterFirst (sep : List Char) : List Char → List Char
  | [] => []
  | c :: rest =>
    if sep ≠ [] ∧ sep.isPrefixOf (c :: rest) then List.drop sep.length (c :: rest)
    else suffixAfterFirst sep rest

/-- Go `strings.Contains(s, sub)`. -/
def containsSub (sub : List Char) : List Char → Bool
  | [] => sub.isEmpty
  | c :: rest => sub.isPrefixOf (c :: rest) || containsSub sub rest

/-- `strings.Contains` on Lean `String`s. -/
def strContains (s sub : String) : Bool :=
  containsSub sub.toList s.toList

theorem splitAfterAux_length (sep : List Char) :
    ∀ n s, List.length s ≤ n → ∀ acc : List Char,
      (splitAfterAux sep acc s).length = goCount sep s + 1 := by
  intro n
  induction n with
  | zero =>
    intro s hs acc
    have : s = [] := List.length_eq_zero.mp (Nat.le_zero.mp hs)
    subst this
    simp [splitAfterAux, goCount]
  | succ n ih =>
    intro s hs acc
    match s with
    | [] => simp [splitAfterAux, goCount]
    | c :: rest =>
      by_cases h : sep ≠ [] ∧ sep.isPrefixOf (c :: rest)
      · have hpos : 0 < sep.length := List.length_pos.mpr h.1
        rw [splitAfterAux, dif_pos h, goCount, dif_pos h]
        have hlen : (List.drop sep.length (c :: rest)).length ≤ n := by
          simp only [List.length_drop, List.length_cons]
          simp only [List.length_cons] at hs
          omega
        simp [ih _ hlen]
      · rw [splitAfterAux, dif_neg h, goCount, dif_neg h]
        exact ih rest (by simpa using Nat.le_of_succ_le_succ hs) (c :: acc)

/-- Fragment count of `SplitAfter` = occurrence count + 1 (Go invariant). -/
theorem splitAfter_length (sep s : List Char) :
    (splitAfter sep s).length = goCount sep s + 1 :=
  splitAfterAux_length sep s.length s le_rfl []

theorem splitAfterAux_of_count_zero (sep : List Char) :
    ∀ n s, List.length s ≤ n → goCount sep s = 0 → ∀ acc : List Char,
      splitAfterAux sep acc s = [acc.reverse ++ s] := by
  intro n
  induction n with
  | zero =>
    intro s hs _ acc
    have : s = [] := List.length_eq_zero.mp (Nat.le_zero.mp hs)
    subst this
    simp [splitAfterAux]
  | succ n ih =>
    intro s hs hcount acc
    match s with
    | [] => simp [splitAfterAux]
    | c :: rest =>
      by_cases h : sep ≠ [] ∧ sep.isPrefixOf (c :: rest)
      · rw [goCount, dif_pos h] at hcount
        omega
      · rw [goCount, dif_neg h] at hcount
        rw [splitAfterAux, dif_neg h,
          ih rest (by simpa using Nat.le_of_succ_le_succ hs) hcount (c :: acc)]
        simp

theorem splitAfterAux_of_count_one (sep : List Char) :
    ∀ n s, List.length s ≤ n → goCount sep s = 1 → ∀ acc : List Char,
      ∃ p, splitAfterAux sep acc s = [p, suffixAfterFirst sep s] := by
  intro n
  induction n with
  | zero =>
    intro s hs hcount _
    have : s = [] := List.length_eq_zero.mp (Nat.le_zero.mp hs)
    subst this
    simp [goCount] at hcount
  | succ n ih =>
    intro s hs hcount acc
    match s with
    | [] => simp [goCount] at hcount
    | c :: rest =>
      by_cases h : sep ≠ [] ∧ sep.isPrefixOf (c :: rest)
      · rw [goCount, dif_pos h] at hcount
        have hzero : goCount sep (List.drop sep.length (c :: rest)) = 0 := by omega
        have hpos : 0 < sep.length := List.length_pos.mpr h.1
        have hlen : (List.drop sep.length (c :: rest)).length ≤ n := by
          simp only [List.length_drop, List.length_cons]
          simp only [List.length_cons] at hs
          omega
        refine ⟨acc.reverse ++ sep, ?_⟩
        rw [splitAfterAux, dif_pos h,
          splitAfterAux_of_count_zero sep n _ hlen hzero []]
        rw [suffixAfterFirst, if_pos h]
        simp
      · rw [goCount, dif_neg h] at hcount
        obtain ⟨p, hp⟩ := ih rest (by simpa using Nat.le_of_succ_le_succ hs) hcount (c :: acc)
        refine ⟨p, ?_⟩
        rw [splitAfterAux, dif_neg h, hp, suffixAfterFirst, if_neg h]

theorem no_overlap_of_no_border (sep : List Char)
    (hnb : ∀ j, j < sep.length → 0 < j → ((sep.drop j).isPrefixOf sep) = false)
    (s : List Char) (hpre : sep.isPrefixOf s) :
    ∀ j, 0 < j → j < sep.length → sep.isPrefixOf (s.drop j) = false := by
  intro j hj hjl
  by_contra hcon
  rw [Bool.not_eq_false, List.isPrefixOf_iff_prefix] at hcon
  rw [List.isPrefixOf_iff_prefix] at hpre
  obtain ⟨t, ht⟩ := hpre
  subst ht
  rw [List.drop_append_of_le_length (le_of_lt hjl)] at hcon
  have h1 : (sep.drop j) <+: sep.drop j ++ t := List.prefix_append _ _
  have h2 : (sep.drop j) <+: sep := by
    refine List.prefix_of_prefix_length_le h1 hcon ?_
    simp only [List.length_drop]
    omega
  have h3 := hnb j hjl hj
  have h4 : ((sep.drop j).isPrefixOf sep) = true := List.isPrefixOf_iff_prefix.mpr h2
  simp [h4] at h3

theorem naiveCount_drop_of_no_match (sep s : List Char)
    (hpre : sep.isPrefixOf s)
    (hno : ∀ j, 0 < j → j < sep.length → sep.isPrefixOf (s.drop j) = false) :
    ∀ k j, 0 < j → j ≤ sep.length → sep.length - j = k →
      naiveCount sep (s.drop j) = naiveCount sep (s.drop sep.length) := by
  have hslen : sep.length ≤ s.length := by
    rw [List.isPrefixOf_iff_prefix] at hpre
    exact hpre.length_le
  intro k
  induction k with
  | zero =>
    intro j _ hle heq
    have : j = sep.length := by omega
    rw [this]
  | succ k ih =>
    intro j hj hle heq
    have hjlt : j < sep.length := by omega
    have hjs : j < s.length := by omega
    rw [List.drop_eq_getElem_cons hjs]
    simp only [naiveCount]
    rw [← List.drop_eq_getElem_cons hjs, hno j hj hjlt]
    simpa using ih (j + 1) (by omega) (by omega) (by omega)

/-- When `sep` has no nontrivial border (no proper suffix of `sep` is also a
prefix of `sep`), occurrences can never overlap, and Go's non-overlapping
count agrees with the plain count of all occurrence positions. -/
theorem goCount_eq_naiveCount (sep : List Char) (hsep : sep ≠ [])
    (hnb : ∀ j, j < sep.length → 0 < j → ((sep.drop j).isPrefixOf sep) = false) :
    ∀ s, goCount sep s = naiveCount sep s := by
  suffices h : ∀ n s, List.length s ≤ n → goCount sep s = naiveCount sep s from
    fun s => h s.length s le_rfl
  intro n
  induction n with
  | zero =>
    intro s hs
    have : s = [] := List.length_eq_zero.mp (Nat.le_zero.mp hs)
    subst this
    simp [goCount, naiveCount]
  | succ n ih =>
    intro s hs
    match s with
    | [] => simp [goCount, naiveCount]
    | c :: rest =>
      by_cases hpre : sep.isPrefixOf (c :: rest)
      · have hcond : sep ≠ [] ∧ sep.isPrefixOf (c :: rest) := ⟨hsep, hpre⟩
        have hpos : 0 < sep.length := List.length_pos.mpr hsep
        rw [goCount, dif_pos hcond]
        simp only [naiveCount, hpre, if_pos]
        have hih : goCount sep (List.drop sep.length (c :: rest))
            = naiveCount sep (List.drop sep.length (c :: rest)) := by
          refine ih _ ?_
          simp only [List.length_drop, List.length_cons]
          simp only [List.length_cons] at hs
          omega
        have hno := no_overlap_of_no_border sep hnb (c :: rest) hpre
        have hrest : naiveCount sep rest
            = naiveCount sep (List.drop sep.length (c :: rest)) := by
          have h1 := naiveCount_drop_of_no_match sep (c :: rest) hpre hno
            (sep.length - 1) 1 one_pos hpos rfl
          simpa using h1
        omega
      · have hcond : ¬ (sep ≠ [] ∧ sep.isPrefixOf (c :: rest)) := by
          intro hcon
          exact absurd hcon.2 (by simpa using hpre)
        rw [goCount, dif_neg hcond, naiveCount, if_neg hpre]
        simpa using ih rest (by simpa using Nat.le_of_succ_le_succ hs)

/-! ### InitScriptRunner (`pkg/provision/provision.go`) -/

/-- The JSON payload the init script must emit after the sentinel. -/
structure RunInitScriptOutput where
  serverWgPublicKey : String
deriving DecidableEq, Repr

/-- The sentinel separating free-text init-script output from its JSON
trailer.  In the source it is the string literal assigned to
`outputSeparator` at the top of `RunInitScript` — a fixed constant. -/
def outputSeparatorStr : String :=
  "93b5409013b3265be85973fc8434a05e8f2e31bd9dae057501e704d40a8ac39f"

def outputSeparator : List Char := outputSeparatorStr.toList

/-- The sentinel has no nontrivial border: no proper suffix of it is also a
prefix of it.  Consequently its occurrences in any string never overlap. -/
theorem outputSeparator_no_border :
    ∀ j, j < outputSeparator.length → 0 < j →
      ((outputSeparator.drop j).isPrefixOf outputSeparator) = false := by decide

theorem goCount_outputSeparator (s : List Char) :
    goCount outputSeparator s = naiveCount outputSeparator s :=
  goCount_eq_naiveCount outputSeparator (by decide) outputSeparator_no_border s

/-- Output-parsing phase of `RunInitScript`:
`parts := strings.SplitAfter(stdout, outputSeparator)`; exactly two parts are
required, and the second is handed to `json.Unmarshal` (an external
collaborator, abstracted as the `unmarshal` parameter; `Except.error`
corresponds to a non-nil `error` return in Go). -/
def runInitScriptParse (unmarshal : List Char → Except GoError RunInitScriptOutput)
    (stdout : List Char) : Except GoError RunInitScriptOutput :=
  let parts := splitAfter outputSeparator stdout
  if parts.length ≠ 2 then
    Except.error (GoError.other "init script did not return expected output")
  else
    unmarshal (parts.getD 1 [])

/-- **C1.** For every stdout string returned by the init script's executor:
if the sentinel occurs exactly once, `RunInitScript` hands exactly the
fragment after the sentinel to the JSON decoder and returns its result — the
parsed outcome (carrying the server public key) when the fragment is valid
JSON, and a failure when it is not (the decoder's error is returned); if the
sentinel occurs zero times or two or more times, `RunInitScript` fails with
the malformed-output error. -/
theorem runInitScript_sentinel_parsing
    (unmarshal : List Char → Except GoError RunInitScriptOutput) (stdout : List Char) :
    (naiveCount outputSeparator stdout = 1 →
        runInitScriptParse unmarshal stdout
          = unmarshal (suffixAfterFirst outputSeparator stdout))
    ∧ (naiveCount outputSeparator stdout ≠ 1 →
        runInitScriptParse unmarshal stdout
          = Except.error (GoError.other "init script did not return expected output")) := by
  constructor
  · intro h1
    have hgo : goCount outputSeparator stdout = 1 := by
      rw [goCount_outputSeparator]
      exact h1
    obtain ⟨p, hp⟩ :=
      splitAfterAux_of_count_one outputSeparator stdout.length stdout le_rfl hgo []
    simp only [runInitScriptParse, splitAfter, hp]
    simp
  · intro h1
    have hlen : (splitAfter outputSeparator stdout).length ≠ 2 := by
      rw [splitAfter_length, goCount_outputSeparator]
      omega
    simp only [runInitScriptParse]
    rw [if_pos hlen]

/-- Witness for C1: output consisting of the sentinel followed by a JSON
fragment, with a decoder accepting that fragment, parses to the outcome. -/
theorem runInitScript_sentinel_parsing_witness :
    runInitScriptParse (fun _ => Except.ok ⟨"SERVERKEY"⟩)
        (outputSeparator ++ ['{', '}'])
      = Except.ok ⟨"SERVERKEY"⟩ := by
  have h := (runInitScript_sentinel_parsing (fun _ => Except.ok ⟨"SERVERKEY"⟩)
      (outputSeparator ++ ['{', '}'])).1 (by decide)
  simpa using h

/-! ### RetryPolicy (`retry` in the AWS backend) -/

/-- The bounded-retry helper.  The operation is modelled as the sequence of
outcomes of its successive invocations: `f k` is the outcome of the `k`-th
call (`none` = success, `some e` = failure with `e`).  The result is the
returned error paired with the number of invocations performed.  This mirrors
`for retries := 20; retries > 0; retries--` with the
`errors.Is(err, context.Canceled)` early return and the `lastError`
bookkeeping; the 1-second sleep has no observable effect here. -/
def retryAux (f : Nat → Option GoError) : Nat → Nat → Option GoError → Option GoError × Nat
  | 0, calls, lastError => (lastError, calls)
  | retries + 1, calls, _ =>
    match f calls with
    | none => (none, calls + 1)
    | some e =>
      if e = GoError.canceled then (some e, calls + 1)
      else retryAux f retries (calls + 1) (some e)

/-- `retry(f)` with the fixed budget of 20 attempts. -/
def retry (f : Nat → Option GoError) : Option GoError × Nat :=
  retryAux f 20 0 none

theorem retryAux_succeeds (f : Nat → Option GoError) :
    ∀ N retries calls lastError, N < retries →
      (∀ k, k < N → ∃ e, f (calls + k) = some e ∧ e ≠ GoError.canceled) →
      f (calls + N) = none →
      retryAux f retries calls lastError = (none, calls + N + 1) := by
  intro N
  induction N with
  | zero =>
    intro retries calls lastError hlt _ hsucc
    obtain ⟨r, rfl⟩ : ∃ r, retries = r + 1 := ⟨retries - 1, by omega⟩
    rw [Nat.add_zero] at hsucc
    simp [retryAux, hsucc]
  | succ N ih =>
    intro retries calls lastError hlt hfail hsucc
    obtain ⟨r, rfl⟩ : ∃ r, retries = r + 1 := ⟨retries - 1, by omega⟩
    obtain ⟨e, he, hne⟩ := hfail 0 (Nat.succ_pos N)
    rw [Nat.add_zero] at he
    have hrec := ih r (calls + 1) (some e) (by omega)
      (fun k hk => by
        obtain ⟨e', he', hne'⟩ := hfail (k + 1) (by omega)
        refine ⟨e', ?_, hne'⟩
        rw [← he']
        congr 1
        omega)
      (by
        rw [show calls + 1 + N = calls + (N + 1) by omega]
        exact hsucc)
    simp only [retryAux, he, if_neg hne, hrec]
    congr 1
    omega

theorem retryAux_exhausts (f : Nat → Option GoError) :
    ∀ retries calls lastError, 0 < retries →
      (∀ k, k < retries → ∃ e, f (calls + k) = some e ∧ e ≠ GoError.canceled) →
      ∃ e, f (calls + retries - 1) = some e ∧
        retryAux f retries calls lastError = (some e, calls + retries) := by
  intro retries
  induction retries with
  | zero =>
    intro _ _ _ h
    omega
  | succ r ih =>
    intro calls lastError _ hfail
    obtain ⟨e, he, hne⟩ := hfail 0 (Nat.succ_pos r)
    rw [Nat.add_zero] at he
    by_cases hr : r = 0
    · subst hr
      refine ⟨e, by simpa using he, ?_⟩
      simp [retryAux, he, if_neg hne]
    · obtain ⟨e', he', hres⟩ := ih (calls + 1) (some e) (by omega)
        (fun k hk => by
          obtain ⟨e'', h1, h2⟩ := hfail (k + 1) (by omega)
          refine ⟨e'', ?_, h2⟩
          rw [← h1]
          congr 1
          omega)
      refine ⟨e', ?_, ?_⟩
      · rw [← he']
        congr 1
        omega
      · simp only [retryAux, he, if_neg hne, hres]
        congr 1
        omega

/-- **C2.** For every operation handed to `retry` (budget 20): if it fails N
times with non-cancellation errors and then succeeds (N < 20), `retry`
returns success after exactly N + 1 invocations; if every attempt fails with
a non-cancellation error, `retry` returns the last observed error after
exactly 20 invocations; a first attempt failing with the cancellation error
is returned immediately after exactly 1 invocation. -/
theorem retry_budget_and_cancellation (f : Nat → Option GoError) :
    (∀ N, N < 20 → (∀ k, k < N → ∃ e, f k = some e ∧ e ≠ GoError.canceled) →
        f N = none → retry f = (none, N + 1))
    ∧ ((∀ k, k < 20 → ∃ e, f k = some e ∧ e ≠ GoError.canceled) →
        ∃ e, f 19 = some e ∧ retry f = (some e, 20))
    ∧ (f 0 = some GoError.canceled → retry f = (some GoError.canceled, 1)) := by
  refine ⟨?_, ?_, ?_⟩
  · intro N hN hfail hsucc
    have h := retryAux_succeeds f N 20 0 none hN (by simpa using hfail) (by simpa using hsucc)
    simpa [retry] using h
  · intro hfail
    obtain ⟨e, he, hres⟩ := retryAux_exhausts f 20 0 none (by omega) (by simpa using hfail)
    exact ⟨e, by simpa using he, by simpa [retry] using hres⟩
  · intro h
    simp [retry, retryAux, h]

/-- Witness for C2: an operation failing 3 times then succeeding is invoked
exactly 4 times and `retry` reports success. -/
theorem retry_budget_and_cancellation_witness :
    retry (fun k => if k < 3 then some (GoError.other "boom") else none) = (none, 4) :=
  (retry_budget_and_cancellation _).1 3 (by omega)
    (fun k hk => ⟨GoError.other "boom", by simp [hk], by simp⟩)
    (by simp)

/-! ### TeardownCoordinator: `AwsProvisioner.DeProvision` and
`HetznerProvisioner.DeProvision` -/

/-- Outcome model of one AWS teardown run: the caller-identity lookup and the
per-attempt outcomes of the three deletion operations (each wrapped in
`retry`). -/
structure AwsTeardownRun where
  identity : Except GoError String
  deleteBucket : Nat → Option GoError
  deleteBootstrapStack : Nat → Option GoError
  deleteMainStack : Nat → Option GoError

/-- `AwsProvisioner.DeProvision` after SDK initialization: three goroutines
each send exactly one error value to the channel; the collector keeps the
non-nil ones and `errors.Join` of no errors is nil.  Scheduling cannot change
which values are sent, only their order, so the collected errors are modelled
in task order.  The returned list is the joined error set (`[]` = nil). -/
def awsDeProvision (run : AwsTeardownRun) : List GoError :=
  let bucketErr :=
    match run.identity with
    | .error e => some e
    | .ok _ => (retry run.deleteBucket).1
  let bootstrapErr := (retry run.deleteBootstrapStack).1
  let mainErr := (retry run.deleteMainStack).1
  [bucketErr, bootstrapErr, mainErr].filterMap id

/-- Outcome model of one Hetzner teardown run (server and SSH-key lookups and
deletions; a lookup returning `none` means the resource does not exist). -/
structure HetznerTeardownRun where
  getServer : Except GoError (Option Nat)
  deleteServer : Option GoError
  getSshKey : Except GoError (Option Nat)
  deleteSshKey : Option GoError

/-- Second half of `HetznerProvisioner.DeProvision`: look up the SSH key and
delete it when present; a deletion failure is returned.  The boolean records
that this phase was reached. -/
def hetznerDeProvisionSshPhase (run : HetznerTeardownRun) : Option GoError × Bool :=
  match run.getSshKey with
  | .ok (some _) =>
    match run.deleteSshKey with
    | some e => (some e, true)
    | none => (none, true)
  | _ => (none, true)

/-- `HetznerProvisioner.DeProvision` after `init()`: strictly sequential.  A
server-deletion failure returns immediately, before the SSH-key phase; lookup
errors are silently ignored (`if err == nil && server != nil`). -/
def hetznerDeProvision (run : HetznerTeardownRun) : Option GoError × Bool :=
  match run.getServer with
  | .ok (some _) =>
    match run.deleteServer with
    | some e => (some e, false)
    | none => hetznerDeProvisionSshPhase run
  | _ => hetznerDeProvisionSshPhase run

/-- Counterexample to C3 as stated: on the Hetzner backend, a server-deletion
failure is returned immediately — the SSH-key teardown task is never reached
(second component `false`), and the result carries only the first failure,
not the union of both failures. -/
theorem hetzner_deprovision_skips_after_failure :
    hetznerDeProvision
      ⟨Except.ok (some 0), some (GoError.other "server delete failed"),
        Except.ok (some 0), some (GoError.other "ssh key delete failed")⟩
      = (some (GoError.other "server delete failed"), false) := rfl

/-- **C3 (amended).** The AWS backend's `DeProvision` attempts every
independent teardown task and returns the union of their failures, nil
exactly when all succeed.  The Hetzner backend's `DeProvision` is sequential:
a server-deletion failure is returned immediately and the SSH-key teardown
task is skipped. -/
theorem deprovision_error_collection (run : AwsTeardownRun) (hrun : HetznerTeardownRun) :
    (awsDeProvision run = [] ↔
        ((∃ a, run.identity = Except.ok a) ∧ (retry run.deleteBucket).1 = none)
          ∧ (retry run.deleteBootstrapStack).1 = none
          ∧ (retry run.deleteMainStack).1 = none)
    ∧ (∀ e, run.identity = Except.error e → e ∈ awsDeProvision run)
    ∧ (∀ a e, run.identity = Except.ok a → (retry run.deleteBucket).1 = some e →
        e ∈ awsDeProvision run)
    ∧ (∀ e, (retry run.deleteBootstrapStack).1 = some e → e ∈ awsDeProvision run)
    ∧ (∀ e, (retry run.deleteMainStack).1 = some e → e ∈ awsDeProvision run)
    ∧ (∀ s e, hrun.getServer = Except.ok (some s) → hrun.deleteServer = some e →
        hetznerDeProvision hrun = (some e, false)) := by
  refine ⟨?_, ?_, ?_, ?_, ?_, ?_⟩
  · cases hid : run.identity with
    | error e => simp [awsDeProvision, hid]
    | ok a =>
      cases hb : (retry run.deleteBucket).1 <;>
        cases h2 : (retry run.deleteBootstrapStack).1 <;>
          cases h3 : (retry run.deleteMainStack).1 <;>
            simp [awsDeProvision, hid, hb, h2, h3]
  · intro e he
    simp [awsDeProvision, he]
  · intro a e ha hb
    simp [awsDeProvision, ha, hb]
  · intro e he
    cases hid : run.identity with
    | error e' => simp [awsDeProvision, hid, he]
    | ok a => simp [awsDeProvision, hid, he]
  · intro e he
    cases hid : run.identity with
    | error e' => simp [awsDeProvision, hid, he]
    | ok a => simp [awsDeProvision, hid, he]
  · intro s e hs hd
    simp [hetznerDeProvision, hs, hd]

/-- Witness for C3 (amended): all three AWS teardown tasks succeeding on
their first attempt yields the empty error set, and the Hetzner
early-return branch fires on a concrete failing run. -/
theorem deprovision_error_collection_witness :
    awsDeProvision ⟨Except.ok "123456789012", fun _ => none, fun _ => none, fun _ => none⟩ = []
      ∧ hetznerDeProvision
          ⟨Except.ok (some 1), some GoError.canceled, Except.ok none, none⟩
          = (some GoError.canceled, false) := by
  constructor
  · exact (deprovision_error_collection
      ⟨Except.ok "123456789012", fun _ => none, fun _ => none, fun _ => none⟩
      ⟨Except.ok (some 1), some GoError.canceled, Except.ok none, none⟩).1.mpr
      ⟨⟨⟨"123456789012", rfl⟩, rfl⟩, rfl, rfl⟩
  · exact (deprovision_error_collection
      ⟨Except.ok "123456789012", fun _ => none, fun _ => none, fun _ => none⟩
      ⟨Except.ok (some 1), some GoError.canceled, Except.ok none, none⟩).2.2.2.2.2
      1 GoError.canceled rfl rfl

/-! ### AssetDeployer / CdkSim (`pkg/aws/cdk_sim.go`) -/

/-- One upload target of an asset (`StackAssetFileDestination`). -/
structure StackAssetFileDestination where
  bucketName : String
  objectKey : String
  assumeRoleArn : String
deriving DecidableEq, Repr

/-- One declared asset file (`StackAssetFile`): source path, packaging mode,
destinations. -/
structure StackAssetFile where
  path : String
  packaging : String
  destinations : List StackAssetFileDestination
deriving DecidableEq, Repr

/-- `packageFilesToUpload`: "zip" packages a directory via `zipDirContent`,
"file" reads the single file verbatim, anything else is the unrecoverable
`unknown packing type` error.  The embedded read-only `cdk.out` filesystem is
abstracted by the `zipDir` and `readFile` parameters; bytes are `List Nat`. -/
def packageFilesToUpload (zipDir readFile : String → Except GoError (List Nat))
    (packingType path : String) : Except GoError (List Nat) :=
  if packingType = "zip" then
    zipDir ("cdk.out/" ++ path)
  else if packingType = "file" then
    readFile ("cdk.out/" ++ path)
  else
    Except.error (GoError.other "unknown packing type")

/-- One attempted `PutObject` call: destination plus uploaded byte content. -/
structure UploadAttempt where
  dest : StackAssetFileDestination
  body : List Nat
deriving DecidableEq, Repr

/-- `innerUploadAssets`: package each asset once (a packaging failure is
logged and that asset skipped via `continue`), then attempt one upload per
destination with the packaged bytes.  An upload error is only logged
(`log.Error`), never breaks the loop.  The Go function returns nothing; its
observable behavior is the trace of attempted uploads, which this model
returns.  (`put` is invoked for every destination; its result `err` is bound
and then dropped, exactly as in the source.) -/
def innerUploadAssets (pack : String → String → Except GoError (List Nat))
    (put : StackAssetFileDestination → List Nat → Option GoError)
    (files : List StackAssetFile) : List UploadAttempt :=
  files.flatMap fun file =>
    match pack file.packaging file.path with
    | .error _ => []
    | .ok assetFile =>
      file.destinations.map fun d =>
        let _err := put d assetFile
        (⟨d, assetFile⟩ : UploadAttempt)

/-- **C8.** Each asset is packaged once; every destination of an asset whose
packaging succeeded receives an upload attempt carrying the identical
packaged byte content; and the attempt trace does not depend on the upload
outcomes at all, so one destination's upload failure cannot prevent any other
destination's upload attempt. -/
theorem innerUploadAssets_per_destination
    (pack : String → String → Except GoError (List Nat))
    (put put' : StackAssetFileDestination → List Nat → Option GoError)
    (files : List StackAssetFile) :
    (∀ file ∈ files, ∀ b, pack file.packaging file.path = Except.ok b →
        ∀ d ∈ file.destinations,
          (⟨d, b⟩ : UploadAttempt) ∈ innerUploadAssets pack put files)
    ∧ innerUploadAssets pack put files = innerUploadAssets pack put' files := by
  constructor
  · intro file hfile b hb d hd
    simp only [innerUploadAssets, List.mem_flatMap]
    refine ⟨file, hfile, ?_⟩
    rw [hb]
    exact List.mem_map.mpr ⟨d, hd, rfl⟩
  · rfl

/-- A concrete two-destination zip asset used to exercise C8. -/
def c8File : StackAssetFile :=
  ⟨"dir", "zip", [⟨"bucketA", "k", "roleA"⟩, ⟨"bucketB", "k", "roleB"⟩]⟩

/-- A concrete upload function that fails on the first destination. -/
def c8Put (d : StackAssetFileDestination) (_ : List Nat) : Option GoError :=
  if d.bucketName = "bucketA" then some (GoError.other "denied") else none

/-- A concrete packager producing identical bytes for every asset. -/
def c8Pack (_ _ : String) : Except GoError (List Nat) := Except.ok [7, 7]

/-- Witness for C8: one zip-packaged asset with two destinations under two
different roles — both destinations receive the identical bytes, even though
the upload to the first destination fails. -/
theorem innerUploadAssets_per_destination_witness :
    ((⟨⟨"bucketA", "k", "roleA"⟩, [7, 7]⟩ : UploadAttempt)
        ∈ innerUploadAssets c8Pack c8Put [c8File])
    ∧ ((⟨⟨"bucketB", "k", "roleB"⟩, [7, 7]⟩ : UploadAttempt)
        ∈ innerUploadAssets c8Pack c8Put [c8File]) := by
  constructor
  · exact (innerUploadAssets_per_destination c8Pack c8Put c8Put [c8File]).1
      c8File (by simp) [7, 7] rfl ⟨"bucketA", "k", "roleA"⟩ (by simp [c8File])
  · exact (innerUploadAssets_per_destination c8Pack c8Put c8Put [c8File]).1
      c8File (by simp) [7, 7] rfl ⟨"bucketB", "k", "roleB"⟩ (by simp [c8File])

/-- `uploadAssets` (the body of `CdkSim.Simulate`): look up the stack
artifact's role, assume it, and run `innerUploadAssets` inside the callback.
The callback is passed to `AssumeRole` as an options function, so it runs
unconditionally, and it ends in `return nil` — so the only error `Simulate`
can return is the `AssumeRole` transport error itself (`assumeRoleErr`);
packaging and upload failures never propagate.  Result: Simulate's returned
error, paired with the upload trace. -/
def uploadAssets (assumeRoleErr : Option GoError)
    (pack : String → String → Except GoError (List Nat))
    (put : StackAssetFileDestination → List Nat → Option GoError)
    (files : List StackAssetFile) : Option GoError × List UploadAttempt :=
  let attempts := innerUploadAssets pack put files
  (assumeRoleErr, attempts)

/-- Go map lookup on an association list whose keys are distinct. -/
def mapLookup (m : List (String × String)) (k : String) : Option String :=
  (m.find? (fun p => p.1 == k)).map (·.2)

/-- `provision.ProvisionResult` (IP rendered as a string). -/
structure GoProvisionResult where
  serverIP : String
  serverWgIp : String
  serverPublicKey : String
deriving DecidableEq, Repr

/-- Step outcomes of one `AwsProvisioner.Provision` run: each field is the
observable result of the corresponding pipeline stage. -/
structure AwsProvisionRun where
  initSdkErr : Option GoError
  bootstrapStack : Except GoError (List (String × String))
  simulateErr : Option GoError
  mainStack : Except GoError (List (String × String))
  waitUntilUpErr : Option GoError
  initScript : Except GoError RunInitScriptOutput

/-- `AwsProvisioner.Provision`: the sequential pipeline.  On source line 144
the call `cdkSim.Simulate(ctx, p.stsClient)` appears as a bare statement —
its returned error is not bound to any variable — so `simulateErr` cannot
influence anything downstream. -/
def awsProvision (run : AwsProvisionRun) (serverWgIp : String) :
    Except GoError GoProvisionResult :=
  match run.initSdkErr with
  | some e => .error e
  | none =>
  match run.bootstrapStack with
  | .error e => .error e
  | .ok _ =>
  match run.mainStack with
  | .error e => .error e
  | .ok stackOutput =>
  match run.waitUntilUpErr with
  | some e => .error e
  | none =>
  match run.initScript with
  | .error e => .error e
  | .ok outputParams =>
    .ok ⟨(mapLookup stackOutput "ServerIp").getD "", serverWgIp,
      outputParams.serverWgPublicKey⟩

/-- Counterexample to C4 as stated: a concrete provision run in which asset
publication hits the unrecoverable `unknown packing type` error (packaging
value "tar"), yet `Simulate` returns nil (the packaging failure is only
logged) and `Provision` — which discards `Simulate`'s return value anyway —
succeeds. -/
theorem provision_ignores_packaging_error :
    (packageFilesToUpload (fun _ => Except.ok [7]) (fun _ => Except.ok [7]) "tar" "asset"
        = Except.error (GoError.other "unknown packing type"))
    ∧ ((uploadAssets none
          (packageFilesToUpload (fun _ => Except.ok [7]) (fun _ => Except.ok [7]))
          (fun _ _ => none)
          [⟨"asset", "tar", [⟨"bucket", "key", "role"⟩]⟩]).1 = none)
    ∧ (awsProvision
        ⟨none, Except.ok [], some (GoError.other "unknown packing type"),
          Except.ok [("InstanceId", "i-1"), ("ServerIp", "203.0.113.7")], none,
          Except.ok ⟨"SERVERKEY"⟩⟩ "172.30.0.1"
        = Except.ok ⟨"203.0.113.7", "172.30.0.1", "SERVERKEY"⟩) :=
  ⟨rfl, rfl, rfl⟩

/-- **C4 (amended).** A packaging value other than "zip" or "file" makes
`packageFilesToUpload` fail with the unrecoverable `unknown packing type`
error, but that failure only skips the asset: `Simulate`'s return value is
exactly the role-assumption error, independent of packaging and upload
outcomes, and `Provision`'s result is entirely independent of `Simulate`'s
return value — `Provision` does not fail on packaging errors. -/
theorem provision_packaging_error_nonfatal :
    (∀ zipDir readFile pt path, pt ≠ "zip" → pt ≠ "file" →
        packageFilesToUpload zipDir readFile pt path
          = Except.error (GoError.other "unknown packing type"))
    ∧ (∀ assumeRoleErr pack put files,
        (uploadAssets assumeRoleErr pack put files).1 = assumeRoleErr)
    ∧ (∀ a b s₁ s₂ c d f wg,
        awsProvision ⟨a, b, s₁, c, d, f⟩ wg = awsProvision ⟨a, b, s₂, c, d, f⟩ wg) := by
  refine ⟨?_, ?_, ?_⟩
  · intro zipDir readFile pt path h1 h2
    simp [packageFilesToUpload, h1, h2]
  · intro assumeRoleErr pack put files
    rfl
  · intro a b s₁ s₂ c d f wg
    rfl

/-- Witness for C4 (amended) at the packaging value "tar". -/
theorem provision_packaging_error_nonfatal_witness :
    packageFilesToUpload (fun _ => Except.ok []) (fun _ => Except.ok []) "tar" "a"
      = Except.error (GoError.other "unknown packing type") :=
  provision_packaging_error_nonfatal.1 (fun _ => Except.ok []) (fun _ => Except.ok [])
    "tar" "a" (by decide) (by decide)

/-! ### RemoteExecutor: `AwsProvisioner.runShell` (agent dispatch) and
`HetznerProvisioner.runShell` (direct SSH session) -/

/-- SSM command invocation status: the five terminal states plus an
in-progress state that keeps the poll loop going. -/
inductive CmdStatus where
  | success
  | failed
  | timedOut
  | cancelling
  | cancelled
  | inProgress
deriving DecidableEq, Repr

def CmdStatus.isTerminal : CmdStatus → Bool
  | .inProgress => false
  | _ => true

/-- One `GetCommandInvocation` response. -/
structure CmdInvocation where
  status : CmdStatus
  responseCode : Int
  stdoutContent : String
  stderrContent : String
deriving DecidableEq, Repr

/-- Poll loop of `AwsProvisioner.runShell`, with fuel: `poll i` is the
outcome of the `i`-th `GetCommandInvocation`; `none` = fuel exhausted (the Go
loop would still be polling).  Terminal statuses return the invocation's
captured stdout/stderr together with the error dictated by the status; a
"Success" status with a nonzero response code is a failure too. -/
def awsRunShellLoop (poll : Nat → Except GoError CmdInvocation) :
    Nat → Nat → Option (String × String × Option GoError)
  | _, 0 => none
  | i, fuel + 1 =>
    match poll i with
    | .error e => some ("", "", some e)
    | .ok inv =>
      match inv.status with
      | .success =>
        if inv.responseCode ≠ 0 then
          some (inv.stdoutContent, inv.stderrContent, some (GoError.other "command failed"))
        else
          some (inv.stdoutContent, inv.stderrContent, none)
      | .failed =>
        some (inv.stdoutContent, inv.stderrContent, some (GoError.other "command failed"))
      | .timedOut =>
        some (inv.stdoutContent, inv.stderrContent, some (GoError.other "command timed out"))
      | .cancelling =>
        some (inv.stdoutContent, inv.stderrContent, some (GoError.other "command was cancelled"))
      | .cancelled =>
        some (inv.stdoutContent, inv.stderrContent, some (GoError.other "command was cancelled"))
      | .inProgress => awsRunShellLoop poll (i + 1) fuel

/-- `AwsProvisioner.runShell`: `SendCommand`, then poll every 10 s. -/
def awsRunShell (send : Except GoError Unit) (poll : Nat → Except GoError CmdInvocation)
    (fuel : Nat) : Option (String × String × Option GoError) :=
  match send with
  | .error e => some ("", "", some e)
  | .ok _ => awsRunShellLoop poll 0 fuel

/-- Observable pieces of one `HetznerProvisioner.runShell` SSH session. -/
structure SshSessionRun where
  signerErr : Option GoError
  dialErr : Option GoError
  newSessionErr : Option GoError
  startErr : Option GoError
  ctxDoneFirst : Bool
  ctxErr : GoError
  waitErr : Option GoError
  stdoutCaptured : String
  stderrCaptured : String

/-- `HetznerProvisioner.runShell`: returns `(stdoutBuffer.Bytes(), nil)` on
success and `(nil, err)` on every failure path — including a failed
`session.Wait()` and a lost race against `ctx.Done()`.  The captured stderr
is never part of the return value (it is only logged). -/
def hetznerRunShell (s : SshSessionRun) : Option String × Option GoError :=
  match s.signerErr with
  | some e => (none, some e)
  | none =>
  match s.dialErr with
  | some e => (none, some e)
  | none =>
  match s.newSessionErr with
  | some e => (none, some e)
  | none =>
  match s.startErr with
  | some e => (none, some e)
  | none =>
  match (if s.ctxDoneFirst then some s.ctxErr else s.waitErr) with
  | some e => (none, some e)
  | none => (some s.stdoutCaptured, none)

/-- Counterexample to C5 as stated: in the direct-SSH variant, a session
whose remote command fails (`session.Wait()` returns an error) yields
`(nil, err)` — the captured stdout "OUT" is dropped, and the captured stderr
"ERR" is not returned on any path of this variant. -/
theorem hetzner_runshell_drops_output_on_failure :
    hetznerRunShell ⟨none, none, none, none, false, GoError.canceled,
        some (GoError.other "exit status 1"), "OUT", "ERR"⟩
      = (none, some (GoError.other "exit status 1")) := rfl

theorem awsRunShellLoop_terminal (poll : Nat → Except GoError CmdInvocation) :
    ∀ N i fuel inv, N < fuel →
      (∀ k, k < N → ∃ j, poll (i + k) = Except.ok j ∧ j.status = CmdStatus.inProgress) →
      poll (i + N) = Except.ok inv → inv.status.isTerminal = true →
      ∃ e, awsRunShellLoop poll i fuel
          = some (inv.stdoutContent, inv.stderrContent, e)
        ∧ (e = none ↔ inv.status = CmdStatus.success ∧ inv.responseCode = 0) := by
  intro N
  induction N with
  | zero =>
    intro i fuel inv hlt _ hpoll hterm
    obtain ⟨f, rfl⟩ : ∃ f, fuel = f + 1 := ⟨fuel - 1, by omega⟩
    rw [Nat.add_zero] at hpoll
    cases hst : inv.status with
    | success =>
      by_cases hrc : inv.responseCode = 0
      · exact ⟨none, by simp [awsRunShellLoop, hpoll, hst, hrc], by simp [hst, hrc]⟩
      · exact ⟨some (GoError.other "command failed"),
          by simp [awsRunShellLoop, hpoll, hst, hrc], by simp [hrc]⟩
    | failed =>
      exact ⟨some (GoError.other "command failed"),
        by simp [awsRunShellLoop, hpoll, hst], by simp [hst]⟩
    | timedOut =>
      exact ⟨some (GoError.other "command timed out"),
        by simp [awsRunShellLoop, hpoll, hst], by simp [hst]⟩
    | cancelling =>
      exact ⟨some (GoError.other "command was cancelled"),
        by simp [awsRunShellLoop, hpoll, hst], by simp [hst]⟩
    | cancelled =>
      exact ⟨some (GoError.other "command was cancelled"),
        by simp [awsRunShellLoop, hpoll, hst], by simp [hst]⟩
    | inProgress => simp [CmdStatus.isTerminal, hst] at hterm
  | succ N ih =>
    intro i fuel inv hlt hprog hpoll hterm
    obtain ⟨f, rfl⟩ : ∃ f, fuel = f + 1 := ⟨fuel - 1, by omega⟩
    obtain ⟨j, hj, hjst⟩ := hprog 0 (Nat.succ_pos N)
    rw [Nat.add_zero] at hj
    have hrec := ih (i + 1) f inv (by omega)
      (fun k hk => by
        obtain ⟨j', h1, h2⟩ := hprog (k + 1) (by omega)
        refine ⟨j', ?_, h2⟩
        rw [← h1]
        congr 1
        omega)
      (by
        rw [show i + 1 + N = i + (N + 1) by omega]
        exact hpoll) hterm
    obtain ⟨e, he, hiff⟩ := hrec
    exact ⟨e, by simp [awsRunShellLoop, hj, hjst, he], hiff⟩

/-- **C5 (amended).** The agent-dispatch variant returns the invocation's
captured stdout and stderr for every terminal command status, on success and
on failure alike (success additionally requires a zero response code; a
transport error returns empty strings instead, as no output was captured).
The direct-SSH variant returns the captured stdout only on success and never
returns the captured stderr; on failure it returns nil output together with
the error. -/
theorem runshell_output_propagation (poll : Nat → Except GoError CmdInvocation)
    (s : SshSessionRun) :
    (∀ N fuel inv, N < fuel →
        (∀ k, k < N → ∃ j, poll k = Except.ok j ∧ j.status = CmdStatus.inProgress) →
        poll N = Except.ok inv → inv.status.isTerminal = true →
        ∃ e, awsRunShell (Except.ok ()) poll fuel
            = some (inv.stdoutContent, inv.stderrContent, e)
          ∧ (e = none ↔ inv.status = CmdStatus.success ∧ inv.responseCode = 0))
    ∧ (s.signerErr = none → s.dialErr = none → s.newSessionErr = none →
        s.startErr = none → s.ctxDoneFirst = false → s.waitErr = none →
        hetznerRunShell s = (some s.stdoutCaptured, none))
    ∧ (∀ e, s.signerErr = none → s.dialErr = none → s.newSessionErr = none →
        s.startErr = none → s.ctxDoneFirst = false → s.waitErr = some e →
        hetznerRunShell s = (none, some e)) := by
  refine ⟨?_, ?_, ?_⟩
  · intro N fuel inv hlt hprog hpoll hterm
    have h := awsRunShellLoop_terminal poll N 0 fuel inv hlt
      (by simpa using hprog) (by simpa using hpoll) hterm
    simpa [awsRunShell] using h
  · intro h1 h2 h3 h4 h5 h6
    simp [hetznerRunShell, h1, h2, h3, h4, h5, h6]
  · intro e h1 h2 h3 h4 h5 h6
    simp [hetznerRunShell, h1, h2, h3, h4, h5, h6]

/-- Witness for C5 (amended): a failed invocation (status "Failed") still
surfaces its captured stdout and stderr, and a clean SSH session returns its
captured stdout. -/
theorem runshell_output_propagation_witness :
    (∃ e, awsRunShell (Except.ok ())
        (fun _ => Except.ok ⟨CmdStatus.failed, 1, "OUT", "ERR"⟩) 1
        = some ("OUT", "ERR", e)
      ∧ (e = none ↔ CmdStatus.failed = CmdStatus.success ∧ (1 : Int) = 0))
    ∧ hetznerRunShell ⟨none, none, none, none, false, GoError.canceled, none, "OUT", "ERR"⟩
        = (some "OUT", none) := by
  constructor
  · exact (runshell_output_propagation
      (fun _ => Except.ok ⟨CmdStatus.failed, 1, "OUT", "ERR"⟩)
      ⟨none, none, none, none, false, GoError.canceled, none, "OUT", "ERR"⟩).1
      0 1 ⟨CmdStatus.failed, 1, "OUT", "ERR"⟩ (by omega)
      (fun k hk => absurd hk (by omega)) rfl rfl
  · exact (runshell_output_propagation
      (fun _ => Except.ok ⟨CmdStatus.failed, 1, "OUT", "ERR"⟩)
      ⟨none, none, none, none, false, GoError.canceled, none, "OUT", "ERR"⟩).2.1
      rfl rfl rfl rfl rfl rfl

/-! ### StackLifecycleManager: `provisionStack` -/

/-- CloudFormation stack status, restricted to the statuses `provisionStack`
inspects; every other status (e.g. CREATE_IN_PROGRESS) keeps the loop
polling and is collapsed into `inProgress`. -/
inductive StackStatus where
  | createComplete
  | createFailed
  | rollbackComplete
  | rollbackFailed
  | deleteFailed
  | deleteComplete
  | inProgress
deriving DecidableEq, Repr

/-- The failure-class statuses of the `else if` chain in `provisionStack`. -/
def StackStatus.isCreateFailureClass : StackStatus → Bool
  | .createFailed => true
  | .rollbackComplete => true
  | .rollbackFailed => true
  | .deleteFailed => true
  | .deleteComplete => true
  | _ => false

/-- One entry of `resp.Stacks`. -/
structure StackInfo where
  status : StackStatus
  statusReason : Option String
  outputs : List (String × String)
deriving DecidableEq, Repr

/-- Result of `provisionStack`: the returned value and the number of
`DeleteStack` calls `provisionStack` itself made (via `removeHandler()`)
before returning. -/
structure ProvisionStackResult where
  value : Except GoError (List (String × String))
  deleteCalls : Nat
deriving Repr

/-- Insertion into a Go `map[string]string` modelled as an association list:
an existing key is overwritten in place, a new key is appended. -/
def mapInsert (m : List (String × String)) (k v : String) : List (String × String) :=
  if m.any (fun p => p.1 == k) then
    m.map (fun p => if p.1 == k then (k, v) else p)
  else
    m ++ [(k, v)]

/-- The map `outputParams` built by inserting each of `resp.Stacks[0].Outputs`
in order. -/
def goMapOfList (l : List (String × String)) : List (String × String) :=
  l.foldl (fun m p => mapInsert m p.1 p.2) []

/-- Polling loop of `provisionStack` with fuel; `describe i` is the outcome
of the `i`-th `DescribeStacks` call — an error, or the `resp.Stacks` list.
A describe error calls `removeHandler()` and returns the error; an empty
stack list continues polling; `CREATE_COMPLETE` returns the output map; a
failure-class status calls `removeHandler()` once and returns the
`stack creation failed` error. -/
def provisionStackLoop (describe : Nat → Except GoError (List StackInfo)) :
    Nat → Nat → Option ProvisionStackResult
  | _, 0 => none
  | i, fuel + 1 =>
    match describe i with
    | .error e => some ⟨.error e, 1⟩
    | .ok [] => provisionStackLoop describe (i + 1) fuel
    | .ok (st :: _) =>
      if st.status = StackStatus.createComplete then
        some ⟨.ok (goMapOfList st.outputs), 0⟩
      else if st.status.isCreateFailureClass then
        some ⟨.error (GoError.other "stack creation failed"), 1⟩
      else
        provisionStackLoop describe (i + 1) fuel

/-- `provisionStack`: `CreateStack` whose only tolerated error is one whose
message contains "AlreadyExistsException", followed by the polling loop. -/
def provisionStack (createErr : Option GoError)
    (describe : Nat → Except GoError (List StackInfo)) (fuel : Nat) :
    Option ProvisionStackResult :=
  match createErr with
  | some e =>
    if strContains e.message "AlreadyExistsException" then
      provisionStackLoop describe 0 fuel
    else
      some ⟨.error e, 0⟩
  | none => provisionStackLoop describe 0 fuel

theorem mapInsert_of_not_mem (m : List (String × String)) (k v : String)
    (h : m.any (fun p => p.1 == k) = false) : mapInsert m k v = m ++ [(k, v)] := by
  simp [mapInsert, h]

theorem goMapOfList_aux (l : List (String × String)) :
    ∀ acc, (((acc ++ l).map Prod.fst).Nodup) →
      l.foldl (fun m p => mapInsert m p.1 p.2) acc = acc ++ l := by
  induction l with
  | nil =>
    intro acc _
    simp
  | cons p rest ih =>
    obtain ⟨k, v⟩ := p
    intro acc hacc
    have hmem : k ∉ acc.map Prod.fst := by
      intro hmem
      rw [List.map_append] at hacc
      have hdisj := (List.nodup_append.mp hacc).2.2
      exact hdisj hmem (by simp)
    have hnot : acc.any (fun q => q.1 == k) = false := by
      rw [List.any_eq_false]
      intro q hq heq
      exact hmem (List.mem_map.mpr ⟨q, hq, by simpa using heq⟩)
    simp only [List.foldl_cons]
    rw [mapInsert_of_not_mem _ _ _ hnot]
    have hrec := ih (acc ++ [(k, v)]) (by simpa using hacc)
    rw [hrec]
    simp

/-- Inserting an association list with pairwise-distinct keys into an empty
Go map reproduces the list unchanged. -/
theorem goMapOfList_eq_self (l : List (String × String))
    (h : (l.map Prod.fst).Nodup) : goMapOfList l = l := by
  simpa [goMapOfList] using goMapOfList_aux l [] (by simpa using h)

theorem provisionStackLoop_complete (describe : Nat → Except GoError (List StackInfo)) :
    ∀ N i fuel st rest, N < fuel →
      (∀ k, k < N → describe (i + k) = Except.ok []
          ∨ ∃ s r, describe (i + k) = Except.ok (s :: r)
              ∧ s.status ≠ StackStatus.createComplete
              ∧ s.status.isCreateFailureClass = false) →
      describe (i + N) = Except.ok (st :: rest) →
      st.status = StackStatus.createComplete →
      provisionStackLoop describe i fuel
        = some ⟨Except.ok (goMapOfList st.outputs), 0⟩ := by
  intro N
  induction N with
  | zero =>
    intro i fuel st rest hlt _ hdesc hst
    obtain ⟨f, rfl⟩ : ∃ f, fuel = f + 1 := ⟨fuel - 1, by omega⟩
    rw [Nat.add_zero] at hdesc
    simp [provisionStackLoop, hdesc, hst]
  | succ N ih =>
    intro i fuel st rest hlt hpre hdesc hst
    obtain ⟨f, rfl⟩ : ∃ f, fuel = f + 1 := ⟨fuel - 1, by omega⟩
    have hrec := ih (i + 1) f st rest (by omega)
      (fun k hk => by
        have h := hpre (k + 1) (by omega)
        rw [show i + (k + 1) = i + 1 + k by omega] at h
        exact h)
      (by
        rw [show i + 1 + N = i + (N + 1) by omega]
        exact hdesc) hst
    rcases hpre 0 (Nat.succ_pos N) with hnil | ⟨s, r, hsr, hne, hnf⟩
    · rw [Nat.add_zero] at hnil
      simp [provisionStackLoop, hnil, hrec]
    · rw [Nat.add_zero] at hsr
      simp [provisionStackLoop, hsr, hne, hnf, hrec]

/-- **C6.** A `CreateStack` failure whose message contains
"AlreadyExistsException" is non-fatal: `provisionStack` behaves exactly as if
the create had succeeded and proceeds to the polling loop.  And when the
polling sequence reaches CREATE_COMPLETE, the stack's full output key/value
map is returned unmodified (keys of CloudFormation outputs are distinct). -/
theorem provisionStack_tolerates_exists_and_returns_outputs
    (describe : Nat → Except GoError (List StackInfo)) (fuel : Nat) :
    (∀ e, strContains e.message "AlreadyExistsException" = true →
        provisionStack (some e) describe fuel = provisionStack none describe fuel)
    ∧ (∀ N st rest, N < fuel →
        (∀ k, k < N → describe k = Except.ok []
            ∨ ∃ s r, describe k = Except.ok (s :: r)
                ∧ s.status ≠ StackStatus.createComplete
                ∧ s.status.isCreateFailureClass = false) →
        describe N = Except.ok (st :: rest) →
        st.status = StackStatus.createComplete →
        (st.outputs.map Prod.fst).Nodup →
        provisionStack none describe fuel = some ⟨Except.ok st.outputs, 0⟩) := by
  constructor
  · intro e he
    simp [provisionStack, he]
  · intro N st rest hlt hpre hdesc hst hnodup
    have h := provisionStackLoop_complete describe N 0 fuel st rest hlt
      (by simpa using hpre) (by simpa using hdesc) hst
    rw [goMapOfList_eq_self st.outputs hnodup] at h
    simpa [provisionStack] using h

/-- The concrete describe sequence used by the C6 witness: one empty
response, then CREATE_COMPLETE with two outputs. -/
def c6Describe : Nat → Except GoError (List StackInfo) :=
  fun i =>
    if i = 0 then Except.ok []
    else Except.ok [⟨StackStatus.createComplete, none,
      [("InstanceId", "i-0abc"), ("ServerIp", "203.0.113.7")]⟩]

/-- Witness for C6: an `AlreadyExistsException` create error followed by a
poll sequence reaching CREATE_COMPLETE returns the two-entry output map
unchanged. -/
theorem provisionStack_tolerates_exists_and_returns_outputs_witness :
    provisionStack (some (GoError.other "api error AlreadyExistsException: exists"))
        c6Describe 2
      = some ⟨Except.ok [("InstanceId", "i-0abc"), ("ServerIp", "203.0.113.7")], 0⟩ := by
  have h1 := (provisionStack_tolerates_exists_and_returns_outputs c6Describe 2).1
    (GoError.other "api error AlreadyExistsException: exists") (by decide)
  have h2 := (provisionStack_tolerates_exists_and_returns_outputs c6Describe 2).2
    1 ⟨StackStatus.createComplete, none,
      [("InstanceId", "i-0abc"), ("ServerIp", "203.0.113.7")]⟩ []
    (by omega)
    (fun k hk => by
      have : k = 0 := by omega
      subst this
      exact Or.inl rfl)
    rfl rfl (by decide)
  rw [h1, h2]

/-! ### Readiness gate: `waitUntilUp` -/

/-- `waitUntilUp` with discrete time: attempt `k` is the `runShell` call made
`10 * k` seconds after `timeoutTime := time.Now().Add(5 * time.Minute)` was
taken (the loop sleeps 10 s per iteration; the duration of `runShell` itself
is not modelled).  `attempt k` is the pair (stdout, error) of the `k`-th
`printf 1` probe.  The result models the Go return value: `none` is nil;
`some errs` is `errors.Join(errors.New("timeout waiting for instance to be
up"), lastError)`, listing the joined errors in order. -/
def waitUntilUpAux (attempt : Nat → String × Option GoError)
    (lastError : Option GoError) (k : Nat) : Option (List GoError) :=
  if 300 < 10 * k then
    some (GoError.other "timeout waiting for instance to be up" :: lastError.toList)
  else if (attempt k).1 = "1" then
    none
  else
    waitUntilUpAux attempt
      (match (attempt k).2 with
        | some e => some e
        | none => lastError) (k + 1)
termination_by 31 - k
decreasing_by omega

def waitUntilUp (attempt : Nat → String × Option GoError) : Option (List GoError) :=
  waitUntilUpAux attempt none 0

/-- The last non-nil error among attempts `i, i+1, …, i+m-1` (the value the
loop's `lastError` variable holds after processing that segment, starting
from nil). -/
def lastErrorSeg (attempt : Nat → String × Option GoError) (i : Nat) : Nat → Option GoError
  | 0 => none
  | m + 1 =>
    match (attempt (i + m)).2 with
    | some e => some e
    | none => lastErrorSeg attempt i m

theorem lastErrorSeg_peel (attempt : Nat → String × Option GoError) (i : Nat) :
    ∀ m, lastErrorSeg attempt i (m + 1)
      = match lastErrorSeg attempt (i + 1) m with
        | some e => some e
        | none => (attempt i).2 := by
  intro m
  induction m with
  | zero =>
    show (match (attempt (i + 0)).2 with
      | some e => some e
      | none => lastErrorSeg attempt i 0) = _
    rw [Nat.add_zero]
    cases (attempt i).2 <;> rfl
  | succ m ih =>
    show (match (attempt (i + (m + 1))).2 with
      | some e => some e
      | none => lastErrorSeg attempt i (m + 1)) = _
    rw [ih, show i + (m + 1) = i + 1 + m by omega]
    show _ = (match (match (attempt (i + 1 + m)).2 with
      | some e => some e
      | none => lastErrorSeg attempt (i + 1) m) with
      | some e => some e
      | none => (attempt i).2)
    cases (attempt (i + 1 + m)).2 with
    | some e => rfl
    | none => cases lastErrorSeg attempt (i + 1) m <;> rfl

theorem waitUntilUpAux_timeout (attempt : Nat → String × Option GoError) :
    ∀ n k last, 31 - k ≤ n →
      (∀ j, k ≤ j → j ≤ 30 → (attempt j).1 ≠ "1") →
      waitUntilUpAux attempt last k
        = some (GoError.other "timeout waiting for instance to be up"
            :: (match lastErrorSeg attempt k (31 - k) with
                | some e => some e
                | none => last).toList) := by
  intro n
  induction n with
  | zero =>
    intro k last hk _
    have h31 : 31 ≤ k := by omega
    rw [waitUntilUpAux, if_pos (by omega)]
    have hz : 31 - k = 0 := by omega
    rw [hz]
    rfl
  | succ n ih =>
    intro k last hk hfail
    by_cases hto : 300 < 10 * k
    · rw [waitUntilUpAux, if_pos hto]
      have hz : 31 - k = 0 := by omega
      rw [hz]
      rfl
    · have hk30 : k ≤ 30 := by omega
      rw [waitUntilUpAux, if_neg hto, if_neg (hfail k le_rfl hk30)]
      rw [ih (k + 1)
        (match (attempt k).2 with
          | some e => some e
          | none => last) (by omega)
        (fun j hj1 hj2 => hfail j (by omega) hj2)]
      have hm : 31 - k = (31 - (k + 1)) + 1 := by omega
      rw [hm, lastErrorSeg_peel]
      cases lastErrorSeg attempt (k + 1) (31 - (k + 1)) with
      | some e => rfl
      | none => cases (attempt k).2 <;> rfl

theorem waitUntilUpAux_success (attempt : Nat → String × Option GoError) :
    ∀ N k last, (∀ j, k ≤ j → j < k + N → (attempt j).1 ≠ "1") →
      10 * (k + N) ≤ 300 → (attempt (k + N)).1 = "1" →
      waitUntilUpAux attempt last k = none := by
  intro N
  induction N with
  | zero =>
    intro k last _ hbound hsucc
    rw [Nat.add_zero] at hbound hsucc
    rw [waitUntilUpAux, if_neg (by omega), if_pos hsucc]
  | succ N ih =>
    intro k last hfail hbound hsucc
    rw [waitUntilUpAux, if_neg (by omega), if_neg (hfail k le_rfl (by omega))]
    refine ih (k + 1) _ (fun j h1 h2 => hfail j (by omega) (by omega)) (by omega) ?_
    rw [show k + 1 + N = k + (N + 1) by omega]
    exact hsucc

/-- Readiness loop of `HetznerProvisioner.Provision`: poll
`runShell(ctx, server, "echo 1")` until it returns a nil error, sleeping 5 s
between failed probes.  There is no deadline and no timeout branch — the loop
can only exit through a successful probe.  `probe k` is the error of the
`k`-th probe; `fuel` bounds how many iterations this model unrolls, with
`none` meaning the loop is still polling after `fuel` probes. -/
def hetznerReadinessLoop (probe : Nat → Option GoError) : Nat → Nat → Option Unit
  | _, 0 => none
  | k, fuel + 1 =>
    match probe k with
    | none => some ()
    | some _ => hetznerReadinessLoop probe (k + 1) fuel

/-- Counterexample to C7 as stated: in the Hetzner backend's readiness loop,
a probe that keeps failing leaves the gate still polling after 100 probes —
over 8 minutes of 5-second sleeps, well past the claimed 5-minute bound — and
no timeout error is ever surfaced. -/
theorem hetzner_readiness_loop_unbounded :
    hetznerReadinessLoop (fun _ => some (GoError.other "connection refused")) 0 100
      = none := rfl

theorem hetznerReadinessLoop_success (probe : Nat → Option GoError) :
    ∀ N i fuel, N < fuel → (∀ j, j < N → probe (i + j) ≠ none) →
      probe (i + N) = none → hetznerReadinessLoop probe i fuel = some () := by
  intro N
  induction N with
  | zero =>
    intro i fuel hlt _ hsucc
    obtain ⟨f, rfl⟩ : ∃ f, fuel = f + 1 := ⟨fuel - 1, by omega⟩
    rw [Nat.add_zero] at hsucc
    simp [hetznerReadinessLoop, hsucc]
  | succ N ih =>
    intro i fuel hlt hfail hsucc
    obtain ⟨f, rfl⟩ : ∃ f, fuel = f + 1 := ⟨fuel - 1, by omega⟩
    have h0 : probe (i + 0) ≠ none := hfail 0 (Nat.succ_pos N)
    rw [Nat.add_zero] at h0
    obtain ⟨e, he⟩ : ∃ e, probe i = some e := by
      cases hp : probe i with
      | none => exact absurd hp h0
      | some e => exact ⟨e, rfl⟩
    simp only [hetznerReadinessLoop, he]
    refine ih (i + 1) f (by omega)
      (fun j hj => ?_)
      (by
        rw [show i + 1 + N = i + (N + 1) by omega]
        exact hsucc)
    have h := hfail (j + 1) (by omega)
    rwa [show i + (j + 1) = i + 1 + j by omega] at h

theorem hetznerReadinessLoop_spins (probe : Nat → Option GoError)
    (hfail : ∀ j, probe j ≠ none) :
    ∀ fuel i, hetznerReadinessLoop probe i fuel = none := by
  intro fuel
  induction fuel with
  | zero => intro i; rfl
  | succ f ih =>
    intro i
    obtain ⟨e, he⟩ : ∃ e, probe i = some e := by
      cases hp : probe i with
      | none => exact absurd hp (hfail i)
      | some e => exact ⟨e, rfl⟩
    simp only [hetznerReadinessLoop, he]
    exact ih (i + 1)

/-- **C7 (amended).** The AWS backend's readiness gate (`waitUntilUp`) polls
the `printf 1` probe until its stdout is "1" and is bounded by the 5-minute
overall timeout: a first success within the window returns nil, and
otherwise at most 31 attempts run, after which the gate terminates and
surfaces `errors.Join(timeout error, last transient error)`.  The Hetzner
backend's readiness loop has no such bound: it returns success at the first
probe whose error is nil, and while every probe fails it is still polling
after any number of iterations, never surfacing a timeout error. -/
theorem readiness_gate_per_backend (attempt : Nat → String × Option GoError)
    (probe : Nat → Option GoError) :
    (∀ N, N ≤ 30 → (∀ j, j < N → (attempt j).1 ≠ "1") → (attempt N).1 = "1" →
        waitUntilUp attempt = none)
    ∧ ((∀ j, j ≤ 30 → (attempt j).1 ≠ "1") →
        waitUntilUp attempt
          = some (GoError.other "timeout waiting for instance to be up"
              :: (lastErrorSeg attempt 0 31).toList))
    ∧ (∀ N fuel, N < fuel → (∀ j, j < N → probe j ≠ none) → probe N = none →
        hetznerReadinessLoop probe 0 fuel = some ())
    ∧ (∀ fuel, (∀ j, probe j ≠ none) → hetznerReadinessLoop probe 0 fuel = none) := by
  refine ⟨?_, ?_, ?_, ?_⟩
  · intro N hN hfail hsucc
    exact waitUntilUpAux_success attempt N 0 none
      (fun j _ h2 => hfail j (by omega)) (by omega) (by simpa using hsucc)
  · intro hfail
    have h := waitUntilUpAux_timeout attempt 31 0 none (by omega)
      (fun j _ hj => hfail j hj)
    rw [waitUntilUp, h]
    cases lastErrorSeg attempt 0 (31 - 0) <;> rfl
  · intro N fuel hlt hfail hsucc
    exact hetznerReadinessLoop_success probe N 0 fuel hlt
      (by simpa using hfail) (by simpa using hsucc)
  · intro fuel hfail
    exact hetznerReadinessLoop_spins probe hfail fuel 0

/-- Witness for C7 (amended): every AWS probe fails, so `waitUntilUp` times
out and surfaces the timeout error joined with the last probe error; every
Hetzner probe fails, so its readiness loop is still polling after 1000
iterations. -/
theorem readiness_gate_per_backend_witness :
    waitUntilUp (fun _ => ("", some (GoError.other "ssm not ready")))
        = some [GoError.other "timeout waiting for instance to be up",
            GoError.other "ssm not ready"]
      ∧ hetznerReadinessLoop (fun _ => some (GoError.other "dial tcp: refused")) 0 1000
          = none := by
  constructor
  · have h := (readiness_gate_per_backend
      (fun _ => ("", some (GoError.other "ssm not ready")))
      (fun _ => some (GoError.other "dial tcp: refused"))).2.1
      (fun j _ => by simp)
    rw [h]
    rfl
  · exact (readiness_gate_per_backend
      (fun _ => ("", some (GoError.other "ssm not ready")))
      (fun _ => some (GoError.other "dial tcp: refused"))).2.2.2
      1000 (fun j => by simp)

/-! ### Sentinel generation in `RunInitScript` -/

/-- `provision.ProvisionArguments` (IP fields carry the rendered
`net.IP.String()` value; the Go field `Type` is `backendType` here). -/
structure ProvisionArguments where
  clientPublicKey : String
  clientWgIp : String
  serverWgIp : String
  wgPort : Nat
  backendType : String
  region : String
deriving DecidableEq, Repr

/-- The `params` map `RunInitScript` builds for the template execution, in
insertion order.  The "OutputSeparator" entry is the local variable
`outputSeparator`, which is assigned the same string literal on every call —
there is no random generation. -/
def runInitScriptParams (a : ProvisionArguments) : List (String × String) :=
  [("OutputSeparator", outputSeparatorStr),
    ("WgPort", toString a.wgPort),
    ("ClientWgIp", a.clientWgIp),
    ("ClientPublicKey", a.clientPublicKey),
    ("ServerWgIp", a.serverWgIp),
    ("Region", a.region),
    ("Type", a.backendType)]

/-- Counterexample to C9 as stated: two distinct provisioning runs (all
arguments differ) render the bootstrap script with the very same sentinel
token — the claim that the tokens of two distinct runs differ is false. -/
theorem sentinel_equal_across_distinct_runs :
    mapLookup (runInitScriptParams
        ⟨"KEYA", "172.30.0.2", "172.30.0.1", 51820, "aws", "eu-central-1"⟩)
        "OutputSeparator"
      = mapLookup (runInitScriptParams
        ⟨"KEYB", "10.0.0.2", "10.0.0.1", 4711, "hetzner", "fsn1"⟩)
        "OutputSeparator" := by
  have h1 : mapLookup (runInitScriptParams
      ⟨"KEYA", "172.30.0.2", "172.30.0.1", 51820, "aws", "eu-central-1"⟩)
      "OutputSeparator" = some outputSeparatorStr := rfl
  have h2 : mapLookup (runInitScriptParams
      ⟨"KEYB", "10.0.0.2", "10.0.0.1", 4711, "hetzner", "fsn1"⟩)
      "OutputSeparator" = some outputSeparatorStr := rfl
  rw [h1, h2]

/-- **C9 (amended).** The sentinel token is not freshly generated at random
per run: `RunInitScript` renders every run with the same fixed 64-character
constant as the "OutputSeparator" template parameter. -/
theorem sentinel_is_fixed_constant (a : ProvisionArguments) :
    mapLookup (runInitScriptParams a) "OutputSeparator" = some outputSeparatorStr := rfl

/-! ### AWS SDK logger (`pkg/aws/aws_logger.go`) -/

/-- Go `strings.Split(s, "\n")`. -/
def splitLines : List Char → List (List Char)
  | [] => [[]]
  | c :: rest =>
    if c = '\n' then [] :: splitLines rest
    else
      match splitLines rest with
      | [] => [[c]]
      | l :: ls => (c :: l) :: ls

/-- Go `strings.Join(lines, "\n")`. -/
def joinLines : List (List Char) → List Char
  | [] => []
  | [l] => l
  | l :: l' :: ls => l ++ '\n' :: joinLines (l' :: ls)

def authorizationTok : List Char := "Authorization".toList

def redactedLine : List Char := "Authorization: [REDACTED]".toList

/-- The body of `redactAuthorization`'s inner loop: a line containing
"Authorization" is replaced wholesale. -/
def redactLine (line : List Char) : List Char :=
  if containsSub authorizationTok line then redactedLine else line

/-- Per-argument transformation of `redactAuthorization` for a string
argument: split on newlines, redact each line, rejoin. -/
def redactString (s : List Char) : List Char :=
  joinLines ((splitLines s).map redactLine)

/-- A Go `interface` argument value: a string, or any non-string value
(identified by an opaque tag). -/
inductive GoVal where
  | str (s : List Char)
  | nonString (tag : Nat)
deriving DecidableEq, Repr

/-- `redactAuthorization`: string arguments are redacted line-wise,
non-string arguments are appended unchanged. -/
def redactAuthorization (v : List GoVal) : List GoVal :=
  v.map fun i =>
    match i with
    | .str s => .str (redactString s)
    | .nonString t => .nonString t

/-- Argument handling of `AwsLogger.Logf`: with no variadic arguments the
format string is forwarded alone (empty argument list); otherwise the
arguments are passed through `redactAuthorization` before being forwarded to
the underlying logger. -/
def logfForwardedArgs (v : List GoVal) : List GoVal :=
  if v.length = 0 then [] else redactAuthorization v

theorem splitLines_ne_nil (s : List Char) : splitLines s ≠ [] := by
  induction s with
  | nil => simp [splitLines]
  | cons c rest ih =>
    rw [splitLines]
    by_cases hc : c = '\n'
    · simp [hc]
    · rw [if_neg hc]
      cases h : splitLines rest with
      | nil => simp
      | cons l ls => simp

theorem splitLines_no_newline (s : List Char) :
    ∀ l ∈ splitLines s, '\n' ∉ l := by
  induction s with
  | nil =>
    intro l hl
    simp [splitLines] at hl
    simp [hl]
  | cons c rest ih =>
    intro l hl
    rw [splitLines] at hl
    by_cases hc : c = '\n'
    · rw [if_pos hc] at hl
      rcases List.mem_cons.mp hl with h | h
      · simp [h]
      · exact ih l h
    · rw [if_neg hc] at hl
      cases h : splitLines rest with
      | nil => exact absurd h (splitLines_ne_nil rest)
      | cons l₀ ls =>
        rw [h] at hl
        rcases List.mem_cons.mp hl with h1 | h1
        · subst h1
          intro hmem
          rcases List.mem_cons.mp hmem with h2 | h2
          · exact hc h2.symm
          · exact ih l₀ (by rw [h]; exact List.mem_cons_self l₀ ls) h2
        · exact ih l (by rw [h]; exact List.mem_cons_of_mem l₀ h1)

theorem splitLines_of_no_newline (l : List Char) (h : '\n' ∉ l) :
    splitLines l = [l] := by
  induction l with
  | nil => rfl
  | cons c rest ih =>
    have hc : c ≠ '\n' := fun hc => h (by simp [hc])
    rw [splitLines, if_neg hc, ih (fun hm => h (List.mem_cons_of_mem c hm))]

theorem splitLines_append_newline (l t : List Char) (h : '\n' ∉ l) :
    splitLines (l ++ '\n' :: t) = l :: splitLines t := by
  induction l with
  | nil => simp [splitLines]
  | cons c rest ih =>
    have hc : c ≠ '\n' := fun hc => h (by simp [hc])
    rw [List.cons_append, splitLines, if_neg hc,
      ih (fun hm => h (List.mem_cons_of_mem c hm))]

/-- For a non-empty list of newline-free lines, `splitLines` inverts
`joinLines` exactly. -/
theorem splitLines_joinLines :
    ∀ ls : List (List Char), ls ≠ [] → (∀ l ∈ ls, '\n' ∉ l) →
      splitLines (joinLines ls) = ls := by
  intro ls
  induction ls with
  | nil => intro h _; exact absurd rfl h
  | cons l ls ih =>
    intro _ hnl
    cases ls with
    | nil =>
      rw [joinLines, splitLines_of_no_newline l (hnl l (List.mem_cons_self l []))]
    | cons l' ls' =>
      rw [joinLines,
        splitLines_append_newline l _ (hnl l (List.mem_cons_self l _)),
        ih (by simp) (fun x hx => hnl x (List.mem_cons_of_mem l hx))]

theorem redactLine_no_newline (l : List Char) (h : '\n' ∉ l) :
    '\n' ∉ redactLine l := by
  rw [redactLine]
  by_cases hc : containsSub authorizationTok l
  · rw [if_pos hc]
    decide
  · rwa [if_neg hc]

/-- `redactString` preserves the line structure: the redacted string splits
into the image of the original lines under `redactLine`. -/
theorem splitLines_redactString (s : List Char) :
    splitLines (redactString s) = (splitLines s).map redactLine := by
  rw [redactString]
  refine splitLines_joinLines _ ?_ ?_
  · simp [splitLines_ne_nil s]
  · intro l hl
    obtain ⟨l₀, hl₀, rfl⟩ := List.mem_map.mp hl
    exact redactLine_no_newline l₀ (splitLines_no_newline s l₀ hl₀)

/-- **C10.** `Logf` forwards the same number of arguments it received;
non-string arguments pass through unchanged; and each string argument is
forwarded with the same number of lines, where every line containing
"Authorization" is replaced wholesale by "Authorization: [REDACTED]" and
every other line is unchanged — so a raw authorization header never reaches
the underlying logger through the argument list. -/
theorem logf_redacts_authorization (v : List GoVal) :
    (logfForwardedArgs v).length = v.length
    ∧ (∀ (i : Nat) (t : Nat), v[i]? = some (GoVal.nonString t) →
        (logfForwardedArgs v)[i]? = some (GoVal.nonString t))
    ∧ (∀ (i : Nat) (s : List Char), v[i]? = some (GoVal.str s) →
        ∃ s', (logfForwardedArgs v)[i]? = some (GoVal.str s')
          ∧ (splitLines s').length = (splitLines s).length
          ∧ (∀ (j : Nat) (line : List Char), (splitLines s)[j]? = some line →
              (containsSub authorizationTok line = false →
                (splitLines s')[j]? = some line)
              ∧ (containsSub authorizationTok line = true →
                (splitLines s')[j]? = some redactedLine))) := by
  have hlen : (logfForwardedArgs v).length = v.length := by
    rw [logfForwardedArgs]
    by_cases h : v.length = 0
    · rw [if_pos h]
      simp [List.length_eq_zero.mp h]
    · rw [if_neg h]
      simp [redactAuthorization]
  refine ⟨hlen, ?_, ?_⟩
  · intro i t hv
    have hne : v.length ≠ 0 := by
      intro h0
      rw [List.length_eq_zero.mp h0] at hv
      simp at hv
    rw [logfForwardedArgs, if_neg hne, redactAuthorization, List.getElem?_map, hv]
    rfl
  · intro i s hv
    have hne : v.length ≠ 0 := by
      intro h0
      rw [List.length_eq_zero.mp h0] at hv
      simp at hv
    refine ⟨redactString s, ?_, ?_, ?_⟩
    · rw [logfForwardedArgs, if_neg hne, redactAuthorization, List.getElem?_map, hv]
      rfl
    · rw [splitLines_redactString]
      simp
    · intro j line hline
      rw [splitLines_redactString]
      constructor
      · intro hno
        rw [List.getElem?_map, hline]
        simp [redactLine, hno]
      · intro hyes
        rw [List.getElem?_map, hline]
        simp [redactLine, hyes]

/-- Witness for C10: a three-line string argument whose middle line carries
an authorization header is forwarded with that line replaced wholesale. -/
theorem logf_redacts_authorization_witness :
    ∃ s', (logfForwardedArgs
        [GoVal.str ("GET /\nAuthorization: Bearer xyz\nHost: h".toList),
          GoVal.nonString 5])[0]? = some (GoVal.str s')
      ∧ (splitLines s')[1]? = some redactedLine := by
  obtain ⟨s', h1, _, h3⟩ := (logf_redacts_authorization
      [GoVal.str ("GET /\nAuthorization: Bearer xyz\nHost: h".toList),
        GoVal.nonString 5]).2.2 0
      ("GET /\nAuthorization: Bearer xyz\nHost: h".toList) rfl
  exact ⟨s', h1, (h3 1 ("Authorization: Bearer xyz".toList) (by decide)).2 (by decide)⟩

end WgOndemand
